import Mathlib

/-!
# Verification of the chat relay boilerplate

A shallow embedding, in Lean 4, of the transport core of the
`gpt-chatbot-boilerplate` repository:

* `chat.php` — the per-request SSE relay (validation, rate limiting,
  the cURL write callback that re-frames the upstream stream, and the
  main try/catch/finally that drives the event trace);
* `websocket-server.php` — the `ChatBotWebSocket` hub (`onMessage`,
  its write callback, and the in-memory conversation store);
* `chatbot.js` — the client transport negotiator
  (`sendMessage` / `tryWebSocket` / `trySSE` / `tryAjax`).

Byte strings are modelled as `List Char` (the sources only manipulate
them bytewise: `explode`, `trim`, `substr`, `strlen`).  PHP-specific
semantics that the code relies on — `empty`, `trim`'s character set,
`explode`/`array_pop` line buffering, `array_slice` with a negative
offset, `json_decode(..., true)` with `isset` chains — are modelled
explicitly below, each next to the definition that uses it.
-/

/-- Byte strings of the PHP/JS sources, modelled as lists of characters. -/
abbrev Str := List Char

/-- The characters stripped by PHP `trim($s)` with no second argument:
space, tab, newline, carriage return, NUL and vertical tab. -/
def phpTrimChar (c : Char) : Bool :=
  c = ' ' || c = '\t' || c = '\n' || c = '\r' || c = Char.ofNat 0 || c = Char.ofNat 11

/-- PHP `trim($s)`: strip `phpTrimChar` characters from both ends. -/
def phpTrim (s : Str) : Str :=
  ((s.dropWhile phpTrimChar).reverse.dropWhile phpTrimChar).reverse

/-- PHP `empty($s)` on a string: true exactly for `""` and `"0"`
(the string `"0"` is falsy in PHP). -/
def phpEmptyStr (s : Str) : Bool :=
  s = ([] : Str) || s = ['0']

/-- PHP `explode("\n", $s)`: split on newline characters.  Like
`explode`, the result is never empty (splitting `""` gives `[""]`). -/
def splitNl : Str → List Str
  | [] => [[]]
  | c :: cs =>
    if c = '\n' then [] :: splitNl cs
    else
      match splitNl cs with
      | [] => [[c]]
      | l :: ls => (c :: l) :: ls

/-- The complete lines of a byte string: everything `array_pop` leaves
in `$lines` after the split (all parts but the last). -/
def linesOf (s : Str) : List Str := (splitNl s).dropLast

/-- The trailing partial line of a byte string: what `array_pop`
returns and the callback keeps in `$buffer`. -/
def restOf (s : Str) : Str := (splitNl s).getLastD []

@[simp] theorem getLastD_cons_cons {α : Type} (x y : α) (l : List α) (d : α) :
    (x :: y :: l).getLastD d = (y :: l).getLastD d := rfl

@[simp] theorem getLastD_one {α : Type} (x d : α) : ([x]).getLastD d = x := rfl

theorem splitNl_ne_nil (s : Str) : splitNl s ≠ [] := by
  cases s with
  | nil => simp [splitNl]
  | cons c cs =>
    simp only [splitNl]
    split
    · simp
    · split <;> simp_all

theorem splitNl_cons_nl (cs : Str) : splitNl ('\n' :: cs) = [] :: splitNl cs := by
  simp [splitNl]

theorem splitNl_cons_other (c : Char) (cs : Str) (hc : c ≠ '\n') :
    splitNl (c :: cs) =
      match splitNl cs with
      | [] => [[c]]
      | l :: ls => (c :: l) :: ls := by
  simp [splitNl, hc]

theorem splitNl_append (a b : Str) :
    splitNl (a ++ b) =
      (splitNl a).dropLast ++
        ((splitNl a).getLastD [] ++ (splitNl b).headD []) :: (splitNl b).tail := by
  induction a with
  | nil =>
    cases hb : splitNl b with
    | nil => exact absurd hb (splitNl_ne_nil b)
    | cons x xs => simp [splitNl, hb]
  | cons c cs ih =>
    have hstep : (c :: cs) ++ b = c :: (cs ++ b) := rfl
    by_cases hc : c = '\n'
    · subst hc
      rw [hstep, splitNl_cons_nl, splitNl_cons_nl, ih]
      cases hcs : splitNl cs with
      | nil => exact absurd hcs (splitNl_ne_nil cs)
      | cons x xs => simp [hcs]
    · rw [hstep, splitNl_cons_other c _ hc, splitNl_cons_other c _ hc, ih]
      cases hcs : splitNl cs with
      | nil => exact absurd hcs (splitNl_ne_nil cs)
      | cons x xs =>
        cases xs with
        | nil =>
          cases hb : splitNl b with
          | nil => exact absurd hb (splitNl_ne_nil b)
          | cons y ys => simp [hcs, hb]
        | cons x2 xs2 => simp [hcs]

/-- The retained partial line never contains a newline. -/
theorem noNl_restOf (s : Str) : '\n' ∉ restOf s := by
  induction s with
  | nil => simp [restOf, splitNl]
  | cons c cs ih =>
    rw [restOf] at ih ⊢
    by_cases hc : c = '\n'
    · subst hc
      rw [splitNl_cons_nl]
      cases hcs : splitNl cs with
      | nil => exact absurd hcs (splitNl_ne_nil cs)
      | cons x xs =>
        rw [hcs] at ih
        simpa using ih
    · rw [splitNl_cons_other c _ hc]
      cases hcs : splitNl cs with
      | nil => exact absurd hcs (splitNl_ne_nil cs)
      | cons x xs =>
        rw [hcs] at ih
        cases xs with
        | nil =>
          simp only [getLastD_one] at ih
          simp [hc, Ne.symm hc, ih]
        | cons x2 xs2 =>
          simpa using ih

theorem getLastD_append_cons {α : Type} (l1 l2 : List α) (x d : α) :
    (l1 ++ x :: l2).getLastD d = (x :: l2).getLastD d := by
  induction l1 with
  | nil => rfl
  | cons y ys ih =>
    rw [List.cons_append]
    cases hz : ys ++ x :: l2 with
    | nil => exact absurd hz (by simp)
    | cons z zs =>
      rw [hz] at ih
      rw [getLastD_cons_cons, ih]

/-- A newline-free string is a single segment under `explode`. -/
theorem splitNl_noNl (s : Str) (h : '\n' ∉ s) : splitNl s = [s] := by
  induction s with
  | nil => rfl
  | cons c cs ih =>
    have hc : c ≠ '\n' := fun hh => h (hh ▸ List.mem_cons_self c cs)
    have hcs : '\n' ∉ cs := fun hh => h (List.mem_cons_of_mem c hh)
    rw [splitNl_cons_other c _ hc, ih hcs]

/-- Complete lines accumulate independently of read boundaries: the
lines closed by `a ++ b` are the lines closed by `a` followed by the
lines closed by feeding `b` after the partial line retained from `a`. -/
theorem linesOf_append (a b : Str) :
    linesOf (a ++ b) = linesOf a ++ linesOf (restOf a ++ b) := by
  have hra : splitNl (restOf a) = [restOf a] := splitNl_noNl _ (noNl_restOf a)
  rw [linesOf, linesOf, linesOf, splitNl_append a b, splitNl_append (restOf a) b, hra]
  simp [List.dropLast_append_cons, restOf]

/-- The retained partial line after `a ++ b` equals the one after
feeding `b` on top of the partial line retained from `a`. -/
theorem restOf_append (a b : Str) :
    restOf (a ++ b) = restOf (restOf a ++ b) := by
  have hra : splitNl (restOf a) = [restOf a] := splitNl_noNl _ (noNl_restOf a)
  rw [restOf, restOf, splitNl_append a b, splitNl_append (restOf a) b, hra,
    getLastD_append_cons]
  simp [restOf]

/-!
## JSON values, as PHP `json_decode($s, true)` produces them

Both write callbacks decode each `data: ` payload with
`json_decode($json, true)` and then navigate
`$decoded['choices'][0]['delta']` under `isset`.  We model the decoded
value, a strict RFC 8259 recursive-descent parser (PHP's decoder is
strict), PHP truthiness of the decoded value, and `isset`-style
navigation.  JSON objects become PHP associative arrays (duplicate
keys: the last one wins; an empty object is the empty array, which is
falsy).
-/

inductive PVal : Type where
  | pnull
  | pbool (b : Bool)
  | pnum (raw : Str)
  | pstr (s : Str)
  | parr (xs : List PVal)
  | pobj (kvs : List (Str × PVal))

/-- JSON inter-token whitespace. -/
def jsonWs (c : Char) : Bool :=
  c = ' ' || c = '\t' || c = '\n' || c = '\r'

def skipWs (s : Str) : Str := s.dropWhile jsonWs

def hexVal (c : Char) : Option Nat :=
  if '0' ≤ c ∧ c ≤ '9' then some (c.toNat - '0'.toNat)
  else if 'a' ≤ c ∧ c ≤ 'f' then some (c.toNat - 'a'.toNat + 10)
  else if 'A' ≤ c ∧ c ≤ 'F' then some (c.toNat - 'A'.toNat + 10)
  else none

def escChar (c : Char) : Option Char :=
  if c = '"' then some '"'
  else if c = '\\' then some '\\'
  else if c = '/' then some '/'
  else if c = 'b' then some (Char.ofNat 8)
  else if c = 'f' then some (Char.ofNat 12)
  else if c = 'n' then some '\n'
  else if c = 'r' then some '\r'
  else if c = 't' then some '\t'
  else none

/-- Body of a JSON string (after the opening quote): returns the
decoded text and the remaining input after the closing quote. -/
def jStrBody : Nat → Str → Option (Str × Str)
  | 0, _ => none
  | _ + 1, [] => none
  | f + 1, c :: cs =>
    if c = '"' then some ([], cs)
    else if c = '\\' then
      match cs with
      | [] => none
      | e :: cs2 =>
        if e = 'u' then
          match cs2 with
          | a :: b :: c2 :: d :: cs3 =>
            match hexVal a, hexVal b, hexVal c2, hexVal d with
            | some ha, some hb, some hc, some hd =>
              let code := ((ha * 16 + hb) * 16 + hc) * 16 + hd
              (jStrBody f cs3).map (fun p => (Char.ofNat code :: p.1, p.2))
            | _, _, _, _ => none
          | _ => none
        else
          match escChar e with
          | some ec => (jStrBody f cs2).map (fun p => (ec :: p.1, p.2))
          | none => none
    else if c.toNat < 32 then none
    else (jStrBody f cs).map (fun p => (c :: p.1, p.2))

def takeDigits (s : Str) : Str × Str :=
  (s.takeWhile Char.isDigit, s.dropWhile Char.isDigit)

/-- Optional exponent part of a JSON number. -/
def jNumExp (acc : Str) (s : Str) : Option (Str × Str) :=
  match s with
  | e :: r =>
    if e = 'e' ∨ e = 'E' then
      let (sgn, r2) : Str × Str :=
        match r with
        | '+' :: rr => (['+'], rr)
        | '-' :: rr => (['-'], rr)
        | _ => ([], r)
      let (ed, r3) := takeDigits r2
      if ed = [] then none else some (acc ++ e :: (sgn ++ ed), r3)
    else some (acc, s)
  | [] => some (acc, [])

/-- A JSON number (strict grammar): returns the raw consumed text. -/
def jNum (s : Str) : Option (Str × Str) :=
  let (neg, s1) : Str × Str :=
    match s with
    | '-' :: r => (['-'], r)
    | _ => ([], s)
  let (ip, s2) := takeDigits s1
  if ip = [] then none
  else if ip.length > 1 ∧ ip.headD '0' = '0' then none
  else
    match s2 with
    | '.' :: r =>
      let (fp, s3) := takeDigits r
      if fp = [] then none else jNumExp (neg ++ ip ++ '.' :: fp) s3
    | _ => jNumExp (neg ++ ip) s2

mutual

def jVal : Nat → Str → Option (PVal × Str)
  | 0, _ => none
  | f + 1, s =>
    match skipWs s with
    | [] => none
    | c :: cs =>
      if c = '"' then (jStrBody (f + 1) cs).map (fun p => (PVal.pstr p.1, p.2))
      else if c = '[' then
        match skipWs cs with
        | ']' :: r => some (PVal.parr [], r)
        | _ => jElems f cs []
      else if c = '{' then
        match skipWs cs with
        | '}' :: r => some (PVal.pobj [], r)
        | _ => jMembers f cs []
      else if c = 'n' then
        match cs with
        | 'u' :: 'l' :: 'l' :: r => some (PVal.pnull, r)
        | _ => none
      else if c = 't' then
        match cs with
        | 'r' :: 'u' :: 'e' :: r => some (PVal.pbool true, r)
        | _ => none
      else if c = 'f' then
        match cs with
        | 'a' :: 'l' :: 's' :: 'e' :: r => some (PVal.pbool false, r)
        | _ => none
      else (jNum (c :: cs)).map (fun p => (PVal.pnum p.1, p.2))

def jElems : Nat → Str → List PVal → Option (PVal × Str)
  | 0, _, _ => none
  | f + 1, s, acc =>
    match jVal f s with
    | none => none
    | some (v, r) =>
      match skipWs r with
      | ',' :: r2 => jElems f r2 (acc ++ [v])
      | ']' :: r2 => some (PVal.parr (acc ++ [v]), r2)
      | _ => none

def jMembers : Nat → Str → List (Str × PVal) → Option (PVal × Str)
  | 0, _, _ => none
  | f + 1, s, acc =>
    match skipWs s with
    | '"' :: cs =>
      match jStrBody (f + 1) cs with
      | none => none
      | some (k, r) =>
        match skipWs r with
        | ':' :: r2 =>
          match jVal f r2 with
          | none => none
          | some (v, r3) =>
            match skipWs r3 with
            | ',' :: r4 => jMembers f r4 (acc ++ [(k, v)])
            | '}' :: r4 => some (PVal.pobj (acc ++ [(k, v)]), r4)
            | _ => none
        | _ => none
    | _ => none

end

/-- PHP `json_decode($s, true)`: `none` models a `null` result for
malformed input (including trailing junk). -/
def jsonParse (s : Str) : Option PVal :=
  match jVal (s.length + 2) s with
  | some (v, r) => if skipWs r = [] then some v else none
  | none => none

/-- All mantissa digits of a raw JSON number are zero. -/
def numIsZero (raw : Str) : Bool :=
  (raw.takeWhile (fun c => c ≠ 'e' ∧ c ≠ 'E')).all (fun c => !c.isDigit || c = '0')

/-- PHP truthiness of a decoded JSON value (`if ($decoded && ...)`). -/
def phpTruthy : PVal → Bool
  | PVal.pnull => false
  | PVal.pbool b => b
  | PVal.pnum raw => !numIsZero raw
  | PVal.pstr s => !phpEmptyStr s
  | PVal.parr xs => !xs.isEmpty
  | PVal.pobj kvs => !kvs.isEmpty

/-- Associative-array lookup; PHP keeps the last duplicate JSON key. -/
def lookupKey (kvs : List (Str × PVal)) (k : Str) : Option PVal :=
  match kvs.reverse.find? (fun kv => kv.1 == k) with
  | some kv => some kv.2
  | none => none

/-- `$v['k']` on a decoded value (string key). -/
def pIndexStr : PVal → Str → Option PVal
  | PVal.pobj kvs, k => lookupKey kvs k
  | _, _ => none

/-- `$v[i]` on a decoded value (integer key). -/
def pIndexNat : PVal → Nat → Option PVal
  | PVal.parr xs, i => xs.get? i
  | PVal.pobj kvs, i => lookupKey kvs (Nat.toDigits 10 i)
  | _, _ => none

/-- `isset`: a missing or `null` value is not set. -/
def issetOpt : Option PVal → Option PVal
  | some PVal.pnull => none
  | some v => some v
  | none => none

/-- PHP string coercion, for `$assistantMessage .= $content` and the
`chunk` payloads (content is a string in every well-formed frame). -/
def phpToStr : PVal → Str
  | PVal.pstr s => s
  | PVal.pnum raw => raw
  | PVal.pbool true => ['1']
  | PVal.pbool false => []
  | PVal.pnull => []
  | PVal.parr _ => ['A', 'r', 'r', 'a', 'y']
  | PVal.pobj _ => ['A', 'r', 'r', 'a', 'y']

/-!
## The upstream write callback of `chat.php` (`streamOpenAIResponse`)

The callback appends the network read to a static `$buffer`, explodes
on `"\n"`, pops the trailing partial line back into the buffer and
walks the complete lines: a line is trimmed, skipped when `empty`,
and processed only when it starts with `"data: "`.  The `[DONE]`
payload emits a `done` event and RETURNS from the callback at once
(dropping the remaining lines of this read); otherwise the payload is
JSON-decoded and a `content` delta emits `chunk` (preceded by `start`
on the first one), while `finish_reason === 'stop'` inside the delta
emits `done`.
-/

inductive MsgEvent : Type where
  | mstart
  | mchunk (content : Str)
  | mdone
deriving DecidableEq

def dataMarker : Str := "data: ".data

def doneSentinel : Str := "[DONE]".data

/-- What the callback extracts from one decoded `data: ` payload. -/
structure DeltaInfo : Type where
  content : Option PVal
  finishStop : Bool

/-- `$decoded = json_decode($json, true)` followed by
`if ($decoded && isset($decoded['choices'][0]['delta']))` and the two
field reads on `$delta`. -/
def decodeDelta (payload : Str) : Option DeltaInfo :=
  match jsonParse payload with
  | none => none
  | some v =>
    if !phpTruthy v then none
    else
      match issetOpt ((pIndexStr v "choices".data).bind
          (fun c => (pIndexNat c 0).bind (fun c0 => pIndexStr c0 "delta".data))) with
      | none => none
      | some d =>
        some { content := issetOpt (pIndexStr d "content".data),
               finishStop :=
                 match pIndexStr d "finish_reason".data with
                 | some (PVal.pstr s) => s = "stop".data
                 | _ => false }

/-- `"data: "` begins the (trimmed) line: `strpos($line, 'data: ') === 0`. -/
def hasDataMarker (t : Str) : Bool := dataMarker.isPrefixOf t

/-- The `chunk`/`done` events one decoded delta contributes and the
updated `$messageStarted` flag: a `content` delta sends `chunk`
(preceded by `start` when the flag is still unset), and
`finish_reason === 'stop'` sends `done`. -/
def deltaEvents (started : Bool) (d : DeltaInfo) : List MsgEvent × Bool :=
  match d.content with
  | none => ((if d.finishStop then [MsgEvent.mdone] else []), started)
  | some c =>
    ((if started then [MsgEvent.mchunk (phpToStr c)]
      else [MsgEvent.mstart, MsgEvent.mchunk (phpToStr c)]) ++
      (if d.finishStop then [MsgEvent.mdone] else []), true)

/-- The events one complete line contributes, together with the updated
`$messageStarted` flag (no early-return behaviour at this level). -/
def lineEvents (started : Bool) (l : Str) : List MsgEvent × Bool :=
  if phpEmptyStr (phpTrim l) then ([], started)
  else if hasDataMarker (phpTrim l) then
    (if (phpTrim l).drop 6 = doneSentinel then ([MsgEvent.mdone], started)
     else
       match decodeDelta ((phpTrim l).drop 6) with
       | none => ([], started)
       | some d => deltaEvents started d)
  else ([], started)

/-- The line is the `data: [DONE]` sentinel (after trimming). -/
def isSentinelLine (l : Str) : Bool :=
  !phpEmptyStr (phpTrim l) && hasDataMarker (phpTrim l) &&
    (phpTrim l).drop 6 = doneSentinel

/-- The callback's `foreach` over the complete lines of one read,
including the early `return` on the `[DONE]` sentinel, which drops
every remaining line of the same read. -/
def processLines (started : Bool) : List Str → List MsgEvent × Bool
  | [] => ([], started)
  | l :: ls =>
    if isSentinelLine l then ([MsgEvent.mdone], started)
    else
      let p1 := lineEvents started l
      let p2 := processLines p1.2 ls
      (p1.1 ++ p2.1, p2.2)

/-- The same walk without the early return (every line processed):
the reference point for boundary independence. -/
def processLinesNE (started : Bool) : List Str → List MsgEvent × Bool
  | [] => ([], started)
  | l :: ls =>
    let p1 := lineEvents started l
    let p2 := processLinesNE p1.2 ls
    (p1.1 ++ p2.1, p2.2)

/-- The static state the callback keeps between reads. -/
structure ChatSt : Type where
  buffer : Str
  messageStarted : Bool
deriving DecidableEq

/-- Initial callback state (`$buffer = ''; $messageStarted = false`). -/
def chatInit : ChatSt := ⟨[], false⟩

/-- One invocation of the write callback on one network read. -/
def chatFeed (st : ChatSt) (data : Str) : ChatSt × List MsgEvent :=
  let s := st.buffer ++ data
  let p := processLines st.messageStarted (linesOf s)
  (⟨restOf s, p.2⟩, p.1)

/-- The callback fed one read at a time. -/
def chatFeedAll (st : ChatSt) : List Str → ChatSt × List MsgEvent
  | [] => (st, [])
  | d :: ds =>
    let p1 := chatFeed st d
    let p2 := chatFeedAll p1.1 ds
    (p2.1, p1.2 ++ p2.2)

/-!
## Read-boundary independence of the callback

The early `return` on the sentinel makes the callback sensitive to
read boundaries in general (a complete line delivered in the same read
after `data: [DONE]` is dropped, while the same line delivered in a
later read is processed).  Boundary independence holds for streams in
which every complete line after the sentinel is `quiet`, i.e.
contributes no events — which covers every stream whose sentinel is
final, the shape the upstream API produces.
-/

/-- A line that contributes no events in either parser state. -/
def quietLine (l : Str) : Bool :=
  ((lineEvents true l).1.isEmpty && (lineEvents false l).1.isEmpty)

/-- After the first sentinel line, only quiet lines follow (and hence
at most one sentinel occurs, a sentinel being non-quiet). -/
def goodLines : List Str → Bool
  | [] => true
  | l :: ls => if isSentinelLine l then ls.all quietLine else goodLines ls

theorem deltaEvents_nil_state (st : Bool) (d : DeltaInfo)
    (h : (deltaEvents st d).1 = []) : deltaEvents st d = ([], st) := by
  rcases hc : d.content with _ | c <;> rcases hf : d.finishStop <;>
    rcases st <;> simp_all [deltaEvents]

theorem lineEvents_nil_state (st : Bool) (l : Str) (h : (lineEvents st l).1 = []) :
    lineEvents st l = ([], st) := by
  unfold lineEvents at h ⊢
  rcases h1 : phpEmptyStr (phpTrim l) with _ | _
  · rw [if_neg (by simp)]
    rw [if_neg (by simp [h1])] at h
    rcases h2 : hasDataMarker (phpTrim l) with _ | _
    · rw [if_neg (by simp)]
    · rw [if_pos rfl]
      rw [if_pos h2] at h
      by_cases h3 : (phpTrim l).drop 6 = doneSentinel
      · rw [if_pos h3] at h
        simp at h
      · rw [if_neg h3] at h ⊢
        rcases hd : decodeDelta ((phpTrim l).drop 6) with _ | d
        · rw [hd] at h
        · rw [hd] at h
          exact deltaEvents_nil_state st d h
  · rw [if_pos rfl]

theorem quietLine_events (st : Bool) (l : Str) (h : quietLine l = true) :
    lineEvents st l = ([], st) := by
  rcases st
  · exact lineEvents_nil_state false l (by
      simp [quietLine, List.isEmpty_iff] at h; exact h.2)
  · exact lineEvents_nil_state true l (by
      simp [quietLine, List.isEmpty_iff] at h; exact h.1)

theorem sentinel_lineEvents (st : Bool) (l : Str) (h : isSentinelLine l = true) :
    lineEvents st l = ([MsgEvent.mdone], st) := by
  unfold isSentinelLine at h
  unfold lineEvents
  simp only [Bool.and_eq_true, Bool.not_eq_eq_eq_not, Bool.not_true,
    decide_eq_true_eq] at h
  simp [h.1.1, h.1.2, h.2]

theorem sentinel_not_quiet (l : Str) (h : isSentinelLine l = true) :
    quietLine l = false := by
  simp [quietLine, sentinel_lineEvents true l h]

theorem allQuiet_NE (st : Bool) (L : List Str) (h : L.all quietLine = true) :
    processLinesNE st L = ([], st) := by
  induction L generalizing st with
  | nil => rfl
  | cons l ls ih =>
    simp only [List.all_cons, Bool.and_eq_true] at h
    simp [processLinesNE, quietLine_events st l h.1, ih st h.2]

theorem allQuiet_goodLines (L : List Str) (h : L.all quietLine = true) :
    goodLines L = true := by
  induction L with
  | nil => rfl
  | cons l ls ih =>
    simp only [List.all_cons, Bool.and_eq_true] at h
    have hs : isSentinelLine l = false := by
      rcases hq : isSentinelLine l
      · rfl
      · exact absurd h.1 (by simp [sentinel_not_quiet l hq])
    simp [goodLines, hs, ih h.2]

/-- Under `goodLines`, the early return is invisible: everything the
sentinel would have cut off is quiet anyway. -/
theorem processLines_eq_NE (st : Bool) (L : List Str) (h : goodLines L = true) :
    processLines st L = processLinesNE st L := by
  induction L generalizing st with
  | nil => rfl
  | cons l ls ih =>
    rcases hs : isSentinelLine l with _ | _
    · have h' : goodLines ls = true := by
        simp only [goodLines, hs] at h
        simpa using h
      simp only [processLines, processLinesNE, hs]
      simp [ih _ h']
    · have hq : ls.all quietLine = true := by
        simp only [goodLines, hs] at h
        simpa using h
      simp only [processLines, processLinesNE, hs,
        sentinel_lineEvents st l hs, allQuiet_NE _ ls hq]
      simp

theorem processLinesNE_append (st : Bool) (L1 L2 : List Str) :
    processLinesNE st (L1 ++ L2) =
      ((processLinesNE st L1).1 ++ (processLinesNE (processLinesNE st L1).2 L2).1,
        (processLinesNE (processLinesNE st L1).2 L2).2) := by
  induction L1 generalizing st with
  | nil => simp [processLinesNE]
  | cons l ls ih => simp [processLinesNE, ih, List.append_assoc]

theorem goodLines_append (L1 L2 : List Str) (h : goodLines (L1 ++ L2) = true) :
    goodLines L1 = true ∧ goodLines L2 = true := by
  induction L1 with
  | nil => exact ⟨rfl, h⟩
  | cons l ls ih =>
    rcases hs : isSentinelLine l with _ | _
    · rw [List.cons_append, goodLines, if_neg (by simp [hs])] at h
      obtain ⟨h1, h2⟩ := ih h
      exact ⟨by rw [goodLines, if_neg (by simp [hs])]; exact h1, h2⟩
    · rw [List.cons_append, goodLines, if_pos hs] at h
      rw [List.all_append, Bool.and_eq_true] at h
      exact ⟨by rw [goodLines, if_pos hs]; exact h.1, allQuiet_goodLines L2 h.2⟩

/-- The write callback with the early return erased. -/
def chatFeedNE (st : ChatSt) (data : Str) : ChatSt × List MsgEvent :=
  let s := st.buffer ++ data
  let p := processLinesNE st.messageStarted (linesOf s)
  (⟨restOf s, p.2⟩, p.1)

theorem chatFeed_eq_NE (st : ChatSt) (data : Str)
    (h : goodLines (linesOf (st.buffer ++ data)) = true) :
    chatFeed st data = chatFeedNE st data := by
  simp only [chatFeed, chatFeedNE]
  rw [processLines_eq_NE _ _ h]

theorem chatFeedNE_append (st : ChatSt) (a b : Str) :
    chatFeedNE st (a ++ b) =
      ((chatFeedNE (chatFeedNE st a).1 b).1,
        (chatFeedNE st a).2 ++ (chatFeedNE (chatFeedNE st a).1 b).2) := by
  unfold chatFeedNE
  simp only
  rw [show st.buffer ++ (a ++ b) = (st.buffer ++ a) ++ b from
        (List.append_assoc _ _ _).symm,
      linesOf_append (st.buffer ++ a) b, restOf_append (st.buffer ++ a) b,
      processLinesNE_append]

/-- Main boundary-independence theorem: with a `goodLines` stream (no
event-bearing complete line after the sentinel) the callback run one
read at a time equals the callback run on the concatenated bytes. -/
theorem chatFeedAll_eq_feed (chunks : List Str) (st : ChatSt)
    (hb : '\n' ∉ st.buffer)
    (h : goodLines (linesOf (st.buffer ++ chunks.flatten)) = true) :
    chatFeedAll st chunks = chatFeed st chunks.flatten := by
  induction chunks generalizing st with
  | nil =>
    have hsp : splitNl st.buffer = [st.buffer] := splitNl_noNl _ hb
    unfold chatFeedAll chatFeed
    simp [linesOf, restOf, hsp, processLines]
  | cons c cs ih =>
    have hjoin : (c :: cs).flatten = c ++ cs.flatten := rfl
    have hgAll : goodLines (linesOf (st.buffer ++ (c ++ cs.flatten))) = true := by
      rw [← hjoin]; exact h
    have hgAll2 : goodLines (linesOf ((st.buffer ++ c) ++ cs.flatten)) = true := by
      rw [List.append_assoc]; exact hgAll
    rw [linesOf_append (st.buffer ++ c) cs.flatten] at hgAll2
    obtain ⟨hg1, hg2⟩ := goodLines_append _ _ hgAll2
    have hf1 : chatFeed st c = chatFeedNE st c := chatFeed_eq_NE st c hg1
    have hbuf1 : (chatFeedNE st c).1.buffer = restOf (st.buffer ++ c) := rfl
    have hb1 : '\n' ∉ (chatFeedNE st c).1.buffer := by
      rw [hbuf1]; exact noNl_restOf _
    have hg2' : goodLines (linesOf ((chatFeedNE st c).1.buffer ++ cs.flatten)) = true := by
      rw [hbuf1]; exact hg2
    have hih : chatFeedAll (chatFeedNE st c).1 cs = chatFeed (chatFeedNE st c).1 cs.flatten :=
      ih _ hb1 hg2'
    have hf2 : chatFeed (chatFeedNE st c).1 cs.flatten = chatFeedNE (chatFeedNE st c).1 cs.flatten :=
      chatFeed_eq_NE _ _ hg2'
    rw [hjoin, chatFeed_eq_NE st _ hgAll, chatFeedNE_append st c cs.flatten]
    show ((chatFeedAll (chatFeed st c).1 cs).1,
        (chatFeed st c).2 ++ (chatFeedAll (chatFeed st c).1 cs).2) = _
    rw [hf1, hih, hf2]

/-!
## `$messageStarted` discipline

The flag guarantees at most one `start` message event per stream, sent
before the first `chunk`.  `scanOK` checks that discipline along an
event list; `afterSt` tracks the flag.
-/

def isStartEv : MsgEvent → Bool
  | MsgEvent.mstart => true
  | _ => false

def afterSt (started : Bool) (evs : List MsgEvent) : Bool :=
  started || evs.any isStartEv

def scanOK (started : Bool) : List MsgEvent → Bool
  | [] => true
  | MsgEvent.mstart :: es => !started && scanOK true es
  | MsgEvent.mchunk _ :: es => started && scanOK started es
  | MsgEvent.mdone :: es => scanOK started es

theorem afterSt_append (st : Bool) (a b : List MsgEvent) :
    afterSt st (a ++ b) = afterSt (afterSt st a) b := by
  simp [afterSt, List.any_append, Bool.or_assoc]

theorem scanOK_append (st : Bool) (a b : List MsgEvent) :
    scanOK st (a ++ b) = (scanOK st a && scanOK (afterSt st a) b) := by
  induction a generalizing st with
  | nil => simp [scanOK, afterSt]
  | cons e es ih =>
    cases e with
    | mstart =>
      rcases st <;> simp [scanOK, ih, afterSt, isStartEv, Bool.and_assoc]
    | mchunk c =>
      rcases st <;> simp [scanOK, ih, afterSt, isStartEv, Bool.and_assoc]
    | mdone =>
      rcases st <;> simp [scanOK, ih, afterSt, isStartEv]

theorem lineEvents_cases (st : Bool) (l : Str) :
    lineEvents st l = ([], st) ∨ lineEvents st l = ([MsgEvent.mdone], st) ∨
      ∃ d, lineEvents st l = deltaEvents st d := by
  unfold lineEvents
  by_cases h1 : phpEmptyStr (phpTrim l) = true
  · rw [if_pos h1]
    exact Or.inl rfl
  · rw [if_neg h1]
    by_cases h2 : hasDataMarker (phpTrim l) = true
    · rw [if_pos h2]
      by_cases h3 : (phpTrim l).drop 6 = doneSentinel
      · rw [if_pos h3]
        exact Or.inr (Or.inl rfl)
      · rw [if_neg h3]
        rcases hd : decodeDelta ((phpTrim l).drop 6) with _ | d
        · exact Or.inl rfl
        · exact Or.inr (Or.inr ⟨d, rfl⟩)
    · rw [if_neg h2]
      exact Or.inl rfl

theorem deltaEvents_scan (st : Bool) (d : DeltaInfo) :
    scanOK st (deltaEvents st d).1 = true ∧
      (deltaEvents st d).2 = afterSt st (deltaEvents st d).1 := by
  rcases hc : d.content with _ | c <;> rcases hf : d.finishStop <;> rcases st <;>
    simp [deltaEvents, hc, hf, scanOK, afterSt, isStartEv]

theorem lineEvents_scan (st : Bool) (l : Str) :
    scanOK st (lineEvents st l).1 = true ∧
      (lineEvents st l).2 = afterSt st (lineEvents st l).1 := by
  rcases lineEvents_cases st l with h | h | ⟨d, h⟩ <;> rw [h]
  · simp [scanOK, afterSt]
  · simp [scanOK, afterSt, isStartEv]
  · exact deltaEvents_scan st d

theorem processLines_scan (L : List Str) (st : Bool) :
    scanOK st (processLines st L).1 = true ∧
      (processLines st L).2 = afterSt st (processLines st L).1 := by
  induction L generalizing st with
  | nil => exact ⟨rfl, by simp [processLines, afterSt]⟩
  | cons l ls ih =>
    by_cases hs : isSentinelLine l = true
    · simp [processLines, hs, scanOK, afterSt, isStartEv]
    · have hl := lineEvents_scan st l
      have hr := ih (lineEvents st l).2
      simp only [processLines, if_neg hs]
      constructor
      · rw [scanOK_append, ← hl.2]
        simp [hl.1, hr.1]
      · rw [afterSt_append, ← hl.2]
        exact hr.2

theorem chatFeed_scan (st : ChatSt) (data : Str) :
    scanOK st.messageStarted (chatFeed st data).2 = true ∧
      (chatFeed st data).1.messageStarted =
        afterSt st.messageStarted (chatFeed st data).2 := by
  simp only [chatFeed]
  exact processLines_scan _ _

theorem chatFeedAll_scan (chunks : List Str) (st : ChatSt) :
    scanOK st.messageStarted (chatFeedAll st chunks).2 = true ∧
      (chatFeedAll st chunks).1.messageStarted =
        afterSt st.messageStarted (chatFeedAll st chunks).2 := by
  induction chunks generalizing st with
  | nil => exact ⟨rfl, by simp [chatFeedAll, afterSt]⟩
  | cons c cs ih =>
    have h1 := chatFeed_scan st c
    have h2 := ih (chatFeed st c).1
    simp only [chatFeedAll]
    constructor
    · rw [scanOK_append, ← h1.2]
      simp [h1.1, h2.1]
    · rw [afterSt_append, ← h1.2]
      exact h2.2

/-!
## `chat.php`: rate limiter, history trim, main flow

`validateRequest` keeps one last-allowed timestamp per client address
(the mtime of a per-address temp file) and rejects a request made
strictly less than 2 seconds after the last allowed one; an allowed
request overwrites the timestamp (`touch`).  Rejected requests do not
touch the file.
-/

/-- One `validateRequest` rate decision for one address: input the
recorded last-allowed timestamp (if any) and the current time, output
the decision and the updated record. -/
def rlAllow (last : Option Int) (now : Int) : Bool × Option Int :=
  match last with
  | some t => if now - t < 2 then (false, some t) else (true, some now)
  | none => (true, some now)

/-- `Message` rows of the conversation arrays. -/
inductive Role : Type where
  | user
  | assistant
deriving DecidableEq

structure Msg : Type where
  role : Role
  content : Str
deriving DecidableEq

/-- PHP `array_slice($m, -$k)`: the last `k` entries — except that a
negative zero offset is plain zero, so `k = 0` returns the whole
array. -/
def phpSliceLast (k : Nat) (xs : List Msg) : List Msg :=
  if k = 0 then xs else xs.drop (xs.length - k)

/-- `chat.php saveConversationHistory`: trim to the last
`$maxMessages` entries when over the cap, then store.  (The SSE relay
defines this function but never calls it on its streaming path.) -/
def saveConversationHistory (maxMessages : Nat) (messages : List Msg) : List Msg :=
  if messages.length > maxMessages then phpSliceLast maxMessages messages else messages

/-- The SSE frames `sendSSEEvent` writes, by event type: the named
events `start`, `error`, `close`, and the `message` events whose JSON
payload carries the normalized stream event. -/
inductive SSEEv : Type where
  | evStart
  | evMsg (m : MsgEvent)
  | evError
  | evClose
deriving DecidableEq

inductive Method : Type where
  | mGET
  | mPOST
  | mOPTIONS
  | mOther
deriving DecidableEq

structure ChatReq : Type where
  method : Method
  message : Str
  conversationId : Str

/-- How `curl_exec` ends: success with HTTP 200, success with a
non-200 status (the callback still saw the body), or failure
(`curl_exec === false`: network error, timeout, or the abort the
callback requests by returning 0 on client disconnect). -/
inductive UpOutcome : Type where
  | ok200
  | httpErr
  | curlFail
deriving DecidableEq

/-- The upstream call as the callback observes it: the sequence of
network reads delivered to `CURLOPT_WRITEFUNCTION`, and how
`curl_exec` ends. -/
structure Upstream : Type where
  chunks : List Str
  outcome : UpOutcome

/-- `$message` as the main block reads it: the request parameter on
GET and POST, and `''` on any other method (no branch assigns it). -/
def requestMessage (req : ChatReq) : Str :=
  match req.method with
  | Method.mGET => req.message
  | Method.mPOST => req.message
  | _ => []

/-- `$conversationId`, defaulted to `'default'` when `empty`. -/
def effectiveConvId (cid : Str) : Str :=
  if phpEmptyStr cid then "default".data else cid

structure ChatRun : Type where
  trace : List SSEEv
  upstreamCalled : Bool
deriving DecidableEq

/-- The main block of `chat.php`: an OPTIONS preflight exits before
the try block with no events; a `validateRequest` failure (missing API
key, or rate limited) and an `empty($message)` throw land in the catch
(`error`) and finally (`close`); otherwise the relay emits the outer
`start`, relays the callback's message events, appends `error` when
`curl_exec` failed or the status was not 200, and always ends with the
single `close` of the finally block. -/
def chatMain (apiKeyOk rateOk : Bool) (req : ChatReq) (up : Upstream) : ChatRun :=
  match req.method with
  | Method.mOPTIONS => ⟨[], false⟩
  | _ =>
    if !apiKeyOk || !rateOk then ⟨[SSEEv.evError, SSEEv.evClose], false⟩
    else if phpEmptyStr (requestMessage req) then
      ⟨[SSEEv.evError, SSEEv.evClose], false⟩
    else
      ⟨[SSEEv.evStart] ++ ((chatFeedAll chatInit up.chunks).2.map SSEEv.evMsg) ++
          (match up.outcome with
           | UpOutcome.ok200 => []
           | _ => [SSEEv.evError]) ++
        [SSEEv.evClose], true⟩

/-- The message-layer events of an SSE trace. -/
def msgEventsOf : List SSEEv → List MsgEvent
  | [] => []
  | SSEEv.evMsg m :: es => m :: msgEventsOf es
  | _ :: es => msgEventsOf es

theorem msgEventsOf_append (a b : List SSEEv) :
    msgEventsOf (a ++ b) = msgEventsOf a ++ msgEventsOf b := by
  induction a with
  | nil => rfl
  | cons e es ih => cases e <;> simp [msgEventsOf, ih]

theorem msgEventsOf_map (ms : List MsgEvent) :
    msgEventsOf (ms.map SSEEv.evMsg) = ms := by
  induction ms with
  | nil => rfl
  | cons m t ih => simp [msgEventsOf, ih]

theorem count_map_evMsg (ms : List MsgEvent) (x : SSEEv)
    (hx : ∀ m, SSEEv.evMsg m ≠ x) : (ms.map SSEEv.evMsg).count x = 0 := by
  induction ms with
  | nil => rfl
  | cons m t ih => simp [List.count_cons, ih, hx m]

/-- What the spec's per-turn SSE trace invariant that survives on the
code amounts to: a non-empty trace ending in the single `close`, at
most one `error`, and message-layer events with at most one `start`
which precedes every `chunk`. -/
def closeDiscipline (t : List SSEEv) : Prop :=
  t ≠ [] ∧
  t.getLastD SSEEv.evError = SSEEv.evClose ∧
  t.count SSEEv.evClose = 1 ∧
  t.count SSEEv.evError ≤ 1 ∧
  scanOK false (msgEventsOf t) = true

theorem closeDiscipline_err : closeDiscipline [SSEEv.evError, SSEEv.evClose] := by
  refine ⟨by simp, rfl, rfl, by decide, rfl⟩

theorem getLastD_concat {α : Type} (l : List α) (x d : α) :
    (l ++ [x]).getLastD d = x := by
  rw [getLastD_append_cons]
  rfl

theorem closeDiscipline_stream (msgs : List MsgEvent) (u : UpOutcome)
    (hscan : scanOK false msgs = true) :
    closeDiscipline ([SSEEv.evStart] ++ msgs.map SSEEv.evMsg ++
      (match u with
       | UpOutcome.ok200 => []
       | _ => [SSEEv.evError]) ++ [SSEEv.evClose]) := by
  have hclose : ∀ m, SSEEv.evMsg m ≠ SSEEv.evClose := by intro m; simp
  have herror : ∀ m, SSEEv.evMsg m ≠ SSEEv.evError := by intro m; simp
  cases u <;>
    refine ⟨by simp, getLastD_concat _ _ _, ?_, ?_, ?_⟩ <;>
    simp [List.count_append, msgEventsOf_append, msgEventsOf_map, msgEventsOf,
      count_map_evMsg _ _ hclose, count_map_evMsg _ _ herror,
      List.count_cons, List.count_nil, hscan, scanOK_append]

/-- Under the method guard the relay satisfies the close discipline on
every code path (the OPTIONS preflight exits before the SSE block and
emits nothing). -/
theorem chatMain_closeDiscipline (apiKeyOk rateOk : Bool) (req : ChatReq)
    (up : Upstream) (hm : req.method ≠ Method.mOPTIONS) :
    closeDiscipline (chatMain apiKeyOk rateOk req up).trace := by
  have hscan := (chatFeedAll_scan up.chunks chatInit).1
  rcases req with ⟨m, message, cid⟩
  cases m
  case mOPTIONS => exact absurd rfl hm
  all_goals
    simp only [chatMain]
    split_ifs <;>
      first
        | exact closeDiscipline_err
        | exact closeDiscipline_stream _ _ hscan

/-!
## `websocket-server.php`: the `ChatBotWebSocket` hub

`onMessage` validates the inbound JSON frame, appends the user message
to the in-memory `$this->conversations[$conversationId]`, sends a
`start` frame, and runs the upstream call inline (blocking
`curl_exec`).  Its write callback mirrors the SSE one but also
accumulates `$assistantMessage`; on the `[DONE]` sentinel it appends
the accumulated text as one assistant message — only when
`!empty($assistantMessage)` — trims the history to
`chat.max_messages`, sends `done`, and returns early.  The outbound
frame vocabulary is `connected|start|chunk|done|error`; a `close`
constructor exists in the model only to state the spec's close event.
-/

inductive WsFrame : Type where
  | wConnected
  | wStart
  | wChunk (content : Str)
  | wDone
  | wError
  | wClose
deriving DecidableEq

/-- `$this->conversations`: a PHP array keyed by conversation id
(insertion order, unique keys). -/
abbrev Convs := List (Str × List Msg)

def getConv : Convs → Str → Option (List Msg)
  | [], _ => none
  | kv :: t, cid => if kv.1 == cid then some kv.2 else getConv t cid

/-- `$this->conversations[$conversationId] = ...`: update the existing
key in place, else append the new key at the end. -/
def setConv : Convs → Str → List Msg → Convs
  | [], cid, msgs => [(cid, msgs)]
  | kv :: t, cid, msgs =>
    if kv.1 == cid then (cid, msgs) :: t else kv :: setConv t cid msgs

/-- The hub's inline history trim on the sentinel (same shape as
`saveConversationHistory`, duplicated in the source). -/
def wsTrim (maxMessages : Nat) (msgs : List Msg) : List Msg :=
  if msgs.length > maxMessages then phpSliceLast maxMessages msgs else msgs

/-- The statics of the hub's write callback. -/
structure WsSt : Type where
  buffer : Str
  messageStarted : Bool
  assistantMessage : Str
deriving DecidableEq

def wsInit : WsSt := ⟨[], false, []⟩

/-- One delta's frames on the WebSocket path; `content` is also
appended to `$assistantMessage`. -/
def wsDeltaFrames (started : Bool) (acc : Str) (d : DeltaInfo) :
    List WsFrame × Bool × Str :=
  match d.content with
  | none => ((if d.finishStop then [WsFrame.wDone] else []), started, acc)
  | some c =>
    ((if started then [WsFrame.wChunk (phpToStr c)]
      else [WsFrame.wStart, WsFrame.wChunk (phpToStr c)]) ++
      (if d.finishStop then [WsFrame.wDone] else []),
      true, acc ++ phpToStr c)

/-- One complete non-sentinel line on the WebSocket path. -/
def wsLineFrames (started : Bool) (acc : Str) (l : Str) :
    List WsFrame × Bool × Str :=
  if phpEmptyStr (phpTrim l) then ([], started, acc)
  else if hasDataMarker (phpTrim l) then
    (if (phpTrim l).drop 6 = doneSentinel then ([], started, acc)
     else
       match decodeDelta ((phpTrim l).drop 6) with
       | none => ([], started, acc)
       | some d => wsDeltaFrames started acc d)
  else ([], started, acc)

/-- The hub callback's walk over one read's complete lines, with the
sentinel's save-and-trim, `done` frame and early return. -/
def wsProcessLines (maxM : Nat) (cid : Str) (started : Bool) (acc : Str)
    (convs : Convs) : List Str → List WsFrame × Bool × Str × Convs
  | [] => ([], started, acc, convs)
  | l :: ls =>
    if isSentinelLine l then
      ([WsFrame.wDone], started, acc,
        if phpEmptyStr acc then convs
        else
          setConv convs cid
            (wsTrim maxM ((getConv convs cid).getD [] ++ [⟨Role.assistant, acc⟩])))
    else
      let p1 := wsLineFrames started acc l
      let p2 := wsProcessLines maxM cid p1.2.1 p1.2.2 convs ls
      (p1.1 ++ p2.1, p2.2)

structure WsFeedOut : Type where
  frames : List WsFrame
  st : WsSt
  convs : Convs
deriving DecidableEq

/-- One invocation of the hub's write callback. -/
def wsFeed (maxM : Nat) (cid : Str) (st : WsSt) (convs : Convs)
    (data : Str) : WsFeedOut :=
  let s := st.buffer ++ data
  let p := wsProcessLines maxM cid st.messageStarted st.assistantMessage convs (linesOf s)
  ⟨p.1, ⟨restOf s, p.2.1, p.2.2.1⟩, p.2.2.2⟩

/-- The hub's callback fed one read at a time. -/
def wsFeedAll (maxM : Nat) (cid : Str) (st : WsSt) (convs : Convs) :
    List Str → WsFeedOut
  | [] => ⟨[], st, convs⟩
  | d :: ds =>
    let p1 := wsFeed maxM cid st convs d
    let p2 := wsFeedAll maxM cid p1.st p1.convs ds
    ⟨p1.frames ++ p2.frames, p2.st, p2.convs⟩

/-- `websocket.enabled` config and friends are irrelevant here; the
hub reads these two values plus the API key. -/
structure WsConfig : Type where
  apiKeyOk : Bool
  maxLen : Nat
  maxMessages : Nat

structure WsRun : Type where
  frames : List WsFrame
  convs : Convs
  upstreamCalled : Bool
deriving DecidableEq

/-- `ChatBotWebSocket::onMessage` on one inbound text frame, including
its `streamOpenAIResponse` call.  Invalid frames (undecodable JSON,
missing/empty/overlong message) and upstream failures surface as one
`error` frame via onMessage's catch; the connection stays open and no
`close` frame exists in the protocol. -/
def onMessage (cfg : WsConfig) (convs : Convs) (raw : Str) (up : Upstream) : WsRun :=
  match issetOpt ((jsonParse raw).bind (fun v => pIndexStr v "message".data)) with
  | none => ⟨[WsFrame.wError], convs, false⟩
  | some mv =>
    if phpEmptyStr (phpTrim (phpToStr mv)) then ⟨[WsFrame.wError], convs, false⟩
    else if (phpToStr mv).length > cfg.maxLen then ⟨[WsFrame.wError], convs, false⟩
    else
      let cid :=
        match issetOpt ((jsonParse raw).bind
            (fun v => pIndexStr v "conversation_id".data)) with
        | some cv => phpToStr cv
        | none => "default".data
      let convs1 := setConv convs cid
        ((getConv convs cid).getD [] ++ [⟨Role.user, phpToStr mv⟩])
      if !cfg.apiKeyOk then ⟨[WsFrame.wStart, WsFrame.wError], convs1, false⟩
      else
        let out := wsFeedAll cfg.maxMessages cid wsInit convs1 up.chunks
        ⟨[WsFrame.wStart] ++ out.frames ++
            (match up.outcome with
             | UpOutcome.ok200 => []
             | _ => [WsFrame.wError]),
          out.convs, true⟩

/-- One queued inbound WebSocket message: which connection sent it,
its raw text, and the upstream behaviour its turn will see. -/
structure HubIn : Type where
  connId : Nat
  raw : Str
  up : Upstream

/-- The Ratchet event loop: single-threaded, `onMessage` runs to
completion — including the blocking `curl_exec` — before the next
queued inbound frame is dispatched. -/
def hubRun (cfg : WsConfig) (convs : Convs) : List HubIn → List (Nat × WsFrame)
  | [] => []
  | e :: es =>
    let r := onMessage cfg convs e.raw e.up
    r.frames.map (fun f => (e.connId, f)) ++ hubRun cfg r.convs es

/-!
## `chatbot.js`: the transport negotiator (`sendMessage`)

`sendMessage` (streaming mode `auto`) awaits `tryWebSocket`, then
`trySSE`, then `tryAjax`.  Each `try*` races its environment against a
timer; the promise keeps the first `resolve` only, but the handlers
registered on the socket/stream are never cancelled.  An attempt's
environment is one of a small set of outcomes read off the handlers in
the source:

* `tryWebSocket`: an already-open socket sends at once; `onopen`
  before the 2000ms timer sends and resolves true; `onerror` first
  resolves false; an `onopen` AFTER the timer finds the promise
  already resolved false — yet still executes `ws.send` on the open
  socket; no event at all leaves the timer's false.
* `trySSE`: constructing `EventSource(url)` issues the GET that
  carries the message, so the server may receive the message even when
  the attempt later errors or times out; `onopen` before the 3000ms
  timer resolves true; `onerror` resolves false; at 3000ms a stream
  still `CONNECTING` is closed and resolves false.
* `tryAjax`: a single blocking POST that always delivers.
-/

def wsTimeoutMs : Nat := 2000

def sseTimeoutMs : Nat := 3000

inductive WsAttempt : Type where
  | alreadyOpen
  | openBefore
  | errBefore
  | openAfterTimeout
  | neverOpens
deriving DecidableEq

inductive SseAttempt : Type where
  | opens
  | errAfterRequest
  | errNoRequest
  | timeoutAfterRequest
  | timeoutNoRequest
deriving DecidableEq

inductive Transport : Type where
  | viaWs
  | viaSse
  | viaAjax
deriving DecidableEq

/-- Did the `tryWebSocket` promise resolve `true`? -/
def wsResolved : WsAttempt → Bool
  | WsAttempt.alreadyOpen => true
  | WsAttempt.openBefore => true
  | _ => false

/-- The WebSocket sends the message to the server in these outcomes —
including the late `onopen` after the 2000ms timer already resolved
the promise `false`. -/
def wsSends : WsAttempt → List Transport
  | WsAttempt.alreadyOpen => [Transport.viaWs]
  | WsAttempt.openBefore => [Transport.viaWs]
  | WsAttempt.openAfterTimeout => [Transport.viaWs]
  | _ => []

/-- Did the `trySSE` promise resolve `true`? -/
def sseResolved : SseAttempt → Bool
  | SseAttempt.opens => true
  | _ => false

/-- The SSE GET (message embedded in the URL) reaches the server in
these outcomes, delivering the message even when the attempt then
fails. -/
def sseSends : SseAttempt → List Transport
  | SseAttempt.opens => [Transport.viaSse]
  | SseAttempt.errAfterRequest => [Transport.viaSse]
  | SseAttempt.timeoutAfterRequest => [Transport.viaSse]
  | _ => []

structure NegotiateRun : Type where
  wsTried : Bool
  sseTried : Bool
  ajaxTried : Bool
  sends : List Transport
deriving DecidableEq

/-- `ChatBot.sendMessage` in `auto` mode: WebSocket, then SSE on a
false resolve, then the AJAX fallback on a second false resolve. -/
def sendMessage (w : WsAttempt) (s : SseAttempt) : NegotiateRun :=
  if wsResolved w then ⟨true, false, false, wsSends w⟩
  else if sseResolved s then ⟨true, true, false, wsSends w ++ sseSends s⟩
  else ⟨true, true, true, wsSends w ++ sseSends s ++ [Transport.viaAjax]⟩

/-!
## Concrete turns used across the development

The scenario of the spec: the user sends `"Hello"` on conversation
`"c1"`; the upstream streams deltas `"Hi"` and `" there"` and then the
sentinel.  Frames are written as the OpenAI stream delivers them. -/

def hiFrame : Str := "data: \x7b\"choices\":[\x7b\"delta\":\x7b\"content\":\"Hi\"\x7d\x7d]\x7d\n\n".data

def thereFrame : Str := "data: \x7b\"choices\":[\x7b\"delta\":\x7b\"content\":\" there\"\x7d\x7d]\x7d\n\n".data

def doneFrame : Str := "data: [DONE]\n\n".data

def helloRaw : Str := "\x7b\"message\":\"Hello\",\"conversation_id\":\"c1\"\x7d".data

/-- The default configuration: API key present,
`security.max_message_length = 4000`, `chat.max_messages = 50`. -/
def defaultCfg : WsConfig := ⟨true, 4000, 50⟩

def scenarioUp : Upstream := ⟨[hiFrame, thereFrame, doneFrame], UpOutcome.ok200⟩

/-- A turn whose upstream closes with the sentinel and no content at
all: `$assistantMessage` stays empty, so the hub appends nothing and —
crucially — never reaches its trim. -/
def doneOnlyUp : Upstream := ⟨[doneFrame], UpOutcome.ok200⟩

/-- A delta whose content is the single character `"0"`. -/
def zeroChunkFrame : Str :=
  "data: \x7b\"choices\":[\x7b\"delta\":\x7b\"content\":\"0\"\x7d\x7d]\x7d\n\n".data

/-- A turn whose upstream streams exactly the delta `"0"` and then the
sentinel: the accumulated assistant reply is the PHP-falsy string
`"0"`, so the `!empty($assistantMessage)` guard skips both the append
and the trim. -/
def zeroReplyUp : Upstream := ⟨[zeroChunkFrame, doneFrame], UpOutcome.ok200⟩

/-- `n` consecutive `"Hello"` turns against `doneOnlyUp`, dispatched
by the hub. -/
def hubTurnsN : Nat → Convs → Convs
  | 0, convs => convs
  | n + 1, convs => hubTurnsN n (onMessage defaultCfg convs helloRaw doneOnlyUp).convs

theorem getConv_setConv (convs : Convs) (cid : Str) (msgs : List Msg) :
    getConv (setConv convs cid msgs) cid = some msgs := by
  induction convs with
  | nil => simp [getConv, setConv]
  | cons kv t ih =>
    by_cases hk : (kv.1 == cid) = true
    · simp [getConv, setConv, hk]
    · simp [getConv, setConv, hk, ih]

/-- One `"Hello"` turn against a sentinel-only upstream: the user
message is appended, nothing else changes — in particular no trim
runs, because `$assistantMessage` stayed empty. -/
theorem turn_appends (convs : Convs) :
    onMessage defaultCfg convs helloRaw doneOnlyUp =
      ⟨[WsFrame.wStart, WsFrame.wDone],
        setConv convs "c1".data
          ((getConv convs "c1".data).getD [] ++ [⟨Role.user, "Hello".data⟩]),
        true⟩ := rfl

theorem hubTurnsN_len (n : Nat) (convs : Convs) :
    (getConv (hubTurnsN n convs) "c1".data).getD [] =
      (getConv convs "c1".data).getD [] ++
        List.replicate n ⟨Role.user, "Hello".data⟩ := by
  induction n generalizing convs with
  | zero => simp [hubTurnsN]
  | succ n ih =>
    rw [hubTurnsN, turn_appends]
    rw [ih, getConv_setConv]
    simp [List.replicate_succ]

theorem phpSliceLast_suffix (k : Nat) (xs : List Msg) : phpSliceLast k xs <:+ xs := by
  unfold phpSliceLast
  split
  · exact List.suffix_rfl
  · exact List.drop_suffix _ _

theorem saveConversationHistory_le (maxM : Nat) (msgs : List Msg) (h : 1 ≤ maxM) :
    (saveConversationHistory maxM msgs).length ≤ maxM := by
  unfold saveConversationHistory
  split
  · rename_i hgt
    unfold phpSliceLast
    rw [if_neg (by omega)]
    simp only [List.length_drop]
    omega
  · rename_i hle
    omega

theorem saveConversationHistory_suffix (maxM : Nat) (msgs : List Msg) :
    saveConversationHistory maxM msgs <:+ msgs := by
  unfold saveConversationHistory
  split
  · exact phpSliceLast_suffix _ _
  · exact List.suffix_rfl

/-- The hub's inline trim is the same code as the SSE helper. -/
theorem wsTrim_eq_save (maxM : Nat) (msgs : List Msg) :
    wsTrim maxM msgs = saveConversationHistory maxM msgs := rfl

/-- The concatenation of the `chunk` contents in a frame list:
exactly what `$assistantMessage .=` accumulates. -/
def chunkConcat : List WsFrame → Str
  | [] => []
  | WsFrame.wChunk c :: fs => c ++ chunkConcat fs
  | _ :: fs => chunkConcat fs

theorem chunkConcat_append (a b : List WsFrame) :
    chunkConcat (a ++ b) = chunkConcat a ++ chunkConcat b := by
  induction a with
  | nil => rfl
  | cons f fs ih => cases f <;> simp [chunkConcat, ih]

theorem wsDeltaFrames_acc (started : Bool) (acc : Str) (d : DeltaInfo) :
    (wsDeltaFrames started acc d).2.2 =
      acc ++ chunkConcat (wsDeltaFrames started acc d).1 := by
  rcases hc : d.content with _ | c <;> rcases hf : d.finishStop <;> rcases started <;>
    simp [wsDeltaFrames, chunkConcat, hc, hf]

theorem wsLineFrames_acc (started : Bool) (acc : Str) (l : Str) :
    (wsLineFrames started acc l).2.2 =
      acc ++ chunkConcat (wsLineFrames started acc l).1 := by
  unfold wsLineFrames
  split_ifs <;> try simp [chunkConcat]
  rcases hd : decodeDelta ((phpTrim l).drop 6) with _ | d
  · simp [chunkConcat]
  · exact wsDeltaFrames_acc _ _ _

theorem wsProcessLines_acc (L : List Str) (maxM : Nat) (cid : Str) (started : Bool)
    (acc : Str) (convs : Convs) :
    (wsProcessLines maxM cid started acc convs L).2.2.1 =
      acc ++ chunkConcat (wsProcessLines maxM cid started acc convs L).1 := by
  induction L generalizing started acc convs with
  | nil => simp [wsProcessLines, chunkConcat]
  | cons l ls ih =>
    by_cases hs : isSentinelLine l = true
    · simp [wsProcessLines, hs, chunkConcat]
    · simp only [wsProcessLines, if_neg hs]
      rw [chunkConcat_append]
      have h1 := wsLineFrames_acc started acc l
      have h2 := ih (wsLineFrames started acc l).2.1 (wsLineFrames started acc l).2.2 convs
      rw [h2, h1, List.append_assoc]

/-- Across one callback invocation, `$assistantMessage` grows by
exactly the concatenation of the `chunk` frames sent during it. -/
theorem wsFeed_acc (maxM : Nat) (cid : Str) (st : WsSt) (convs : Convs) (data : Str) :
    (wsFeed maxM cid st convs data).st.assistantMessage =
      st.assistantMessage ++ chunkConcat (wsFeed maxM cid st convs data).frames := by
  simp only [wsFeed]
  exact wsProcessLines_acc _ _ _ _ _ _

/-- The sentinel line: the hub sends `done`, and appends the
accumulated text as one assistant message and trims — exactly when
the accumulator is non-`empty`. -/
theorem wsSentinel_save (maxM : Nat) (cid : Str) (started : Bool) (acc : Str)
    (convs : Convs) (ls : List Str) :
    wsProcessLines maxM cid started acc convs ("data: [DONE]".data :: ls) =
      ([WsFrame.wDone], started, acc,
        if phpEmptyStr acc then convs
        else
          setConv convs cid
            (wsTrim maxM ((getConv convs cid).getD [] ++ [⟨Role.assistant, acc⟩]))) := by
  have hs : isSentinelLine "data: [DONE]".data = true := by decide
  simp [wsProcessLines, hs]

/-!
## The claims

Constants for the concrete counterexamples and witnesses.
-/

/-- A read whose only complete line is the sentinel. -/
def splitCexA : Str := "data: [DONE]\n".data

/-- A read with one complete content-delta line. -/
def splitCexB : Str := "data: \x7b\"choices\":[\x7b\"delta\":\x7b\"content\":\"X\"\x7d\x7d]\x7d\n".data

/-- A well-formed stream split mid-line into three reads. -/
def bndA : Str := "data: \x7b\"choices\":[\x7b\"del".data

def bndB : Str := "ta\":\x7b\"content\":\"Hi\"\x7d\x7d]\x7d\nda".data

def bndC : Str := "ta: [DONE]\n".data

/-- An inbound WebSocket frame whose message is the string `"0"`. -/
def zeroRaw : Str := "\x7b\"message\":\"0\"\x7d".data

/-- C1 counterexample: on the WebSocket relay a fully successful turn
(`"Hello"` answered by `"Hi"`, `" there"`, sentinel) emits
`start, start, chunk, chunk, done` — two start frames (one from
`onMessage`, one from the first delta) and no `close` frame at all, so
the claimed per-turn shape `start, chunk*, (done|error), close` with
exactly one start and exactly one trailing close fails on this
relay. -/
theorem c1_ws_no_close_counterexample :
    (onMessage defaultCfg [] helloRaw scenarioUp).frames =
      [WsFrame.wStart, WsFrame.wStart, WsFrame.wChunk "Hi".data,
        WsFrame.wChunk " there".data, WsFrame.wDone] ∧
    (onMessage defaultCfg [] helloRaw scenarioUp).frames.count WsFrame.wClose = 0 ∧
    ¬((onMessage defaultCfg [] helloRaw scenarioUp).frames.count WsFrame.wClose = 1 ∧
      (onMessage defaultCfg [] helloRaw scenarioUp).frames.count WsFrame.wStart = 1) := by
  decide

/-- C1 (amended): on the SSE relay, every code path other than the
OPTIONS preflight emits a non-empty trace ending with exactly one
`close`, carrying at most one `error`, and whose message-layer events
contain at most one `start`, sent before any `chunk`.  The WebSocket
relay emits no `close` frame and duplicates `start` (see the
counterexample). -/
theorem c1_sse_event_discipline (apiKeyOk rateOk : Bool) (req : ChatReq)
    (up : Upstream) (hm : req.method ≠ Method.mOPTIONS) :
    closeDiscipline (chatMain apiKeyOk rateOk req up).trace :=
  chatMain_closeDiscipline apiKeyOk rateOk req up hm

theorem c1_sse_event_discipline_witness :
    closeDiscipline (chatMain true true ⟨Method.mPOST, "Hello".data, "c1".data⟩
      ⟨[hiFrame, thereFrame, doneFrame], UpOutcome.ok200⟩).trace :=
  c1_sse_event_discipline true true _ _ (by decide)

/-- C2 counterexample: the callback's early `return` on `data: [DONE]`
drops the remaining complete lines of the same read, so identical
bytes split at a different boundary parse differently: delivered in
one read, the content line after the sentinel is lost; delivered in
two reads, it yields `start` and `chunk` after the `done`. -/
theorem c2_split_counterexample :
    ([splitCexA, splitCexB] : List Str).flatten = splitCexA ++ splitCexB ∧
    (chatFeed chatInit (splitCexA ++ splitCexB)).2 = [MsgEvent.mdone] ∧
    (chatFeedAll chatInit [splitCexA, splitCexB]).2 =
      [MsgEvent.mdone, MsgEvent.mstart, MsgEvent.mchunk "X".data] ∧
    chatFeedAll chatInit [splitCexA, splitCexB] ≠
      chatFeed chatInit ([splitCexA, splitCexB].flatten) := by
  decide

/-- C2 (amended): read-boundary independence holds for every byte
sequence in which no event-producing complete line follows the first
`[DONE]` sentinel line — in particular for every stream whose sentinel
is final, the shape the upstream produces: the callback fed any
partition of the bytes produces the same events and state as fed the
whole sequence in one read. -/
theorem c2_boundary_independence (chunks : List Str)
    (h : goodLines (linesOf chunks.flatten) = true) :
    chatFeedAll chatInit chunks = chatFeed chatInit chunks.flatten :=
  chatFeedAll_eq_feed chunks chatInit (by simp [chatInit]) h

theorem c2_boundary_independence_witness :
    goodLines (linesOf ([bndA, bndB, bndC] : List Str).flatten) = true ∧
    chatFeedAll chatInit [bndA, bndB, bndC] =
      chatFeed chatInit ([bndA, bndB, bndC] : List Str).flatten :=
  ⟨by decide, c2_boundary_independence [bndA, bndB, bndC] (by decide)⟩

/-- C3 counterexample: when the WebSocket opens only after its 2000ms
timer has already resolved the attempt `false`, the stale `onopen`
handler still executes `ws.send` on the now-open socket while the
negotiator proceeds to SSE — two transports deliver the same
message. -/
theorem c3_duplicate_send_counterexample :
    (sendMessage WsAttempt.openAfterTimeout SseAttempt.opens).sends =
      [Transport.viaWs, Transport.viaSse] ∧
    ¬((sendMessage WsAttempt.openAfterTimeout SseAttempt.opens).sends.length = 1) := by
  decide

/-- C3 (amended): exactly one transport delivers the message provided
the WebSocket does not open after its 2000ms timeout and no abandoned
SSE attempt had already delivered its GET before erroring or timing
out — the two uncancelled-handler races of the nested-callback
code. -/
theorem c3_single_delivery (w : WsAttempt) (s : SseAttempt)
    (hw : w ≠ WsAttempt.openAfterTimeout)
    (hs1 : s ≠ SseAttempt.errAfterRequest)
    (hs2 : s ≠ SseAttempt.timeoutAfterRequest) :
    (sendMessage w s).sends.length = 1 := by
  cases w <;> cases s <;>
    first
      | exact absurd rfl hw
      | exact absurd rfl hs1
      | exact absurd rfl hs2
      | rfl

theorem c3_single_delivery_witness :
    (sendMessage WsAttempt.neverOpens SseAttempt.opens).sends.length = 1 :=
  c3_single_delivery WsAttempt.neverOpens SseAttempt.opens (by decide) (by decide)
    (by decide)

set_option maxRecDepth 8000 in
/-- C4 counterexample: the hub trims only when it appends a non-empty
assistant reply on the sentinel; a user-message append never trims.
After 51 `"Hello"` turns whose upstream sent only the sentinel (no
content, so nothing is appended and no trim runs), conversation
`"c1"` holds 51 stored messages — above the `max_messages = 50`
cap. -/
theorem c4_growth_counterexample :
    ((getConv (hubTurnsN 51 []) "c1".data).getD []).length = 51 ∧
    ¬(((getConv (hubTurnsN 51 []) "c1".data).getD []).length ≤ defaultCfg.maxMessages) := by
  have h := hubTurnsN_len 51 []
  have hg : getConv ([] : Convs) "c1".data = none := rfl
  rw [hg] at h
  constructor
  · rw [h]
    simp only [Option.getD_none, List.nil_append, List.length_replicate]
  · rw [h]
    simp only [Option.getD_none, List.nil_append, List.length_replicate, defaultCfg]
    decide

/-- C4 (amended): both trim sites — `saveConversationHistory` (the SSE
helper, which the streaming path never invokes) and the hub's
sentinel-time trim — cut the history to at most `max_messages`
entries, dropping oldest first (the result is a suffix), whenever
`max_messages ≥ 1`; the bound therefore holds after the hub's
assistant append, but no trim guards user appends. -/
theorem c4_trim_bound (maxM : Nat) (msgs : List Msg) (h : 1 ≤ maxM) :
    (saveConversationHistory maxM msgs).length ≤ maxM ∧
    saveConversationHistory maxM msgs <:+ msgs ∧
    (wsTrim maxM msgs).length ≤ maxM ∧
    wsTrim maxM msgs <:+ msgs :=
  ⟨saveConversationHistory_le maxM msgs h, saveConversationHistory_suffix maxM msgs,
    by rw [wsTrim_eq_save]; exact saveConversationHistory_le maxM msgs h,
    by rw [wsTrim_eq_save]; exact saveConversationHistory_suffix maxM msgs⟩

theorem c4_trim_bound_witness :
    (saveConversationHistory 50 (List.replicate 51 ⟨Role.user, []⟩)).length ≤ 50 ∧
    saveConversationHistory 50 (List.replicate 51 ⟨Role.user, []⟩) <:+
      List.replicate 51 ⟨Role.user, []⟩ ∧
    (wsTrim 50 (List.replicate 51 ⟨Role.user, []⟩)).length ≤ 50 ∧
    wsTrim 50 (List.replicate 51 ⟨Role.user, []⟩) <:+ List.replicate 51 ⟨Role.user, []⟩ :=
  c4_trim_bound 50 (List.replicate 51 ⟨Role.user, []⟩) (by decide)

/-- C5: an allowed request at time `t` records `t`; a second request
from the same address strictly less than 2 seconds later is rejected
and leaves the record unchanged; a request at least 2 seconds later is
allowed and overwrites the record with its own time. -/
theorem c5_rate_limiter (last : Option Int) (t now : Int)
    (h : (rlAllow last t).1 = true) :
    (rlAllow last t).2 = some t ∧
    (now - t < 2 → (rlAllow (some t) now).1 = false ∧ (rlAllow (some t) now).2 = some t) ∧
    (t + 2 ≤ now → (rlAllow (some t) now).1 = true ∧ (rlAllow (some t) now).2 = some now) := by
  refine ⟨?_, ?_, ?_⟩
  · rcases last with _ | t0
    · rfl
    · by_cases hlt : t - t0 < 2
      · simp [rlAllow, hlt] at h
      · simp [rlAllow, hlt]
  · intro hlt
    simp [rlAllow, hlt]
  · intro hge
    have hnlt : ¬(now - t < 2) := by omega
    simp [rlAllow, hnlt]

theorem c5_rate_limiter_witness :
    (rlAllow none 0).2 = some 0 ∧
    ((1 : Int) - 0 < 2 → (rlAllow (some 0) 1).1 = false ∧ (rlAllow (some 0) 1).2 = some 0) ∧
    ((0 : Int) + 2 ≤ 1 → (rlAllow (some 0) 1).1 = true ∧ (rlAllow (some 0) 1).2 = some 1) :=
  c5_rate_limiter none 0 1 (by decide)

/-- C6 counterexample: the append-and-trim on the terminal signal is
not unconditional.  The code guards both with
`!empty($assistantMessage)`, and PHP `empty("0")` is true: a turn
whose upstream streams the single content delta `"0"` and then the
sentinel sends `start, chunk("0"), done` to the client, yet the
stored conversation keeps only the user message — the accumulated
reply `"0"` is dropped, with no assistant append and no trim. -/
theorem c6_zero_reply_counterexample :
    (onMessage defaultCfg [] helloRaw zeroReplyUp).frames =
      [WsFrame.wStart, WsFrame.wStart, WsFrame.wChunk "0".data, WsFrame.wDone] ∧
    (onMessage defaultCfg [] helloRaw zeroReplyUp).convs =
      [("c1".data, [⟨Role.user, "Hello".data⟩])] ∧
    ¬((onMessage defaultCfg [] helloRaw zeroReplyUp).convs =
      [("c1".data, [⟨Role.user, "Hello".data⟩, ⟨Role.assistant, "0".data⟩])]) := by
  decide

/-- C6 (amended): across one callback read `$assistantMessage` grows
by exactly the concatenation of the `chunk` contents it sent; on the
sentinel the hub sends `done` and — exactly when the accumulator is
non-`empty` in PHP's sense, i.e. neither `""` nor `"0"` — appends it
as one assistant message after the existing history and trims
(otherwise it stores nothing); concretely the `"Hello"` /
`"Hi"`+`" there"` scenario stores conversation `"c1"` as
`[user "Hello", assistant "Hi there"]`. -/
theorem c6_ws_assistant_accumulation :
    (∀ (maxM : Nat) (cid : Str) (st : WsSt) (convs : Convs) (data : Str),
      (wsFeed maxM cid st convs data).st.assistantMessage =
        st.assistantMessage ++ chunkConcat (wsFeed maxM cid st convs data).frames) ∧
    (∀ (maxM : Nat) (cid : Str) (started : Bool) (acc : Str) (convs : Convs)
        (ls : List Str),
      wsProcessLines maxM cid started acc convs ("data: [DONE]".data :: ls) =
        ([WsFrame.wDone], started, acc,
          if phpEmptyStr acc then convs
          else setConv convs cid
            (wsTrim maxM ((getConv convs cid).getD [] ++ [⟨Role.assistant, acc⟩])))) ∧
    (onMessage defaultCfg [] helloRaw scenarioUp).convs =
      [("c1".data, [⟨Role.user, "Hello".data⟩, ⟨Role.assistant, "Hi there".data⟩])] :=
  ⟨wsFeed_acc, wsSentinel_save, by decide⟩

/-- C7 counterexample: `chat.php` never checks
`security.max_message_length`: a 4001-character message (over the
4000 default) is not rejected — the relay emits `start` and calls the
upstream. -/
theorem c7_overlong_counterexample :
    (List.replicate 4001 'a').length = 4001 ∧
    chatMain true true ⟨Method.mPOST, List.replicate 4001 'a', []⟩ ⟨[], UpOutcome.ok200⟩ =
      ⟨[SSEEv.evStart, SSEEv.evClose], true⟩ := by
  constructor
  · rw [List.length_replicate]
  · decide

/-- C7 (amended): the SSE relay rejects a missing or `empty` message,
and any request with a method other than GET/POST/OPTIONS (whose
message parse stays empty), immediately with `error` then `close` and
with no upstream call; it enforces no maximum message length — that
check exists only in the WebSocket hub. -/
theorem c7_sse_reject_invalid :
    (∀ (a r : Bool) (req : ChatReq) (up : Upstream),
      req.method ≠ Method.mOPTIONS → phpEmptyStr (requestMessage req) = true →
      chatMain a r req up = ⟨[SSEEv.evError, SSEEv.evClose], false⟩) ∧
    (∀ (a r : Bool) (msg cid : Str) (up : Upstream),
      chatMain a r ⟨Method.mOther, msg, cid⟩ up =
        ⟨[SSEEv.evError, SSEEv.evClose], false⟩) := by
  constructor
  · intro a r req up hm he
    rcases req with ⟨m, msg, cid⟩
    cases m
    case mOPTIONS => exact absurd rfl hm
    all_goals
      simp only [chatMain]
      split_ifs <;> rfl
  · intro a r msg cid up
    simp only [chatMain]
    split_ifs <;> first | rfl | simp_all [requestMessage, phpEmptyStr]

theorem c7_sse_reject_invalid_witness :
    chatMain true true ⟨Method.mPOST, [], []⟩ ⟨[], UpOutcome.ok200⟩ =
      ⟨[SSEEv.evError, SSEEv.evClose], false⟩ :=
  c7_sse_reject_invalid.1 true true ⟨Method.mPOST, [], []⟩ ⟨[], UpOutcome.ok200⟩
    (by decide) (by decide)

/-- C8: in auto mode a WebSocket attempt that resolved `false`
(failure or 2000ms timeout) is followed by the SSE attempt, and an SSE
attempt that also resolved `false` (failure or 3000ms connection
timeout) is followed by the blocking AJAX fallback; the two timeout
constants are 2000ms and 3000ms as configured in the source. -/
theorem c8_fallback_chain (w : WsAttempt) (s : SseAttempt)
    (hw : wsResolved w = false) :
    (sendMessage w s).sseTried = true ∧
    (sseResolved s = false → (sendMessage w s).ajaxTried = true) ∧
    wsTimeoutMs = 2000 ∧ sseTimeoutMs = 3000 := by
  cases w <;> cases s <;>
    simp_all [sendMessage, wsResolved, sseResolved, wsTimeoutMs, sseTimeoutMs]

theorem c8_fallback_chain_witness :
    (sendMessage WsAttempt.neverOpens SseAttempt.timeoutNoRequest).sseTried = true ∧
    (sseResolved SseAttempt.timeoutNoRequest = false →
      (sendMessage WsAttempt.neverOpens SseAttempt.timeoutNoRequest).ajaxTried = true) ∧
    wsTimeoutMs = 2000 ∧ sseTimeoutMs = 3000 :=
  c8_fallback_chain WsAttempt.neverOpens SseAttempt.timeoutNoRequest (by decide)

/-- C9 (amended): the hub dispatches queued inbound frames strictly
sequentially — `onMessage` runs the blocking `curl_exec` inline in the
single-threaded Ratchet loop, so every frame of an earlier queued
turn, including all frames derived from its upstream stream, is
delivered before any frame of a later turn, whatever the upstream
behaviours are. -/
theorem c9_sequential_dispatch (cfg : WsConfig) (convs : Convs) (a b : HubIn) :
    hubRun cfg convs [a, b] =
      (onMessage cfg convs a.raw a.up).frames.map (fun f => (a.connId, f)) ++
        (onMessage cfg (onMessage cfg convs a.raw a.up).convs b.raw b.up).frames.map
          (fun f => (b.connId, f)) := by
  simp [hubRun]

/-- C9 counterexample: lengthening connection 1's upstream stream by
one delta moves connection 2's first delivered frame later in the
global order — one connection's upstream traffic delays delivery to
the other, contradicting the claimed independence. -/
theorem c9_upstream_delay_counterexample :
    hubRun defaultCfg [] [⟨1, helloRaw, ⟨[hiFrame, doneFrame], UpOutcome.ok200⟩⟩,
        ⟨2, helloRaw, doneOnlyUp⟩] =
      [(1, WsFrame.wStart), (1, WsFrame.wStart), (1, WsFrame.wChunk "Hi".data),
        (1, WsFrame.wDone), (2, WsFrame.wStart), (2, WsFrame.wDone)] ∧
    hubRun defaultCfg [] [⟨1, helloRaw, scenarioUp⟩, ⟨2, helloRaw, doneOnlyUp⟩] =
      [(1, WsFrame.wStart), (1, WsFrame.wStart), (1, WsFrame.wChunk "Hi".data),
        (1, WsFrame.wChunk " there".data), (1, WsFrame.wDone),
        (2, WsFrame.wStart), (2, WsFrame.wDone)] ∧
    ¬((hubRun defaultCfg [] [⟨1, helloRaw, scenarioUp⟩,
          ⟨2, helloRaw, doneOnlyUp⟩]).findIdx (fun p => p.1 == 2) =
      (hubRun defaultCfg [] [⟨1, helloRaw, ⟨[hiFrame, doneFrame], UpOutcome.ok200⟩⟩,
          ⟨2, helloRaw, doneOnlyUp⟩]).findIdx (fun p => p.1 == 2)) := by
  decide

/-- C10: PHP `empty("0")` is true, so both relays classify the
non-empty message string `"0"` as a missing/empty message and reject
it with an error before any upstream call. -/
theorem c10_zero_string_rejected :
    chatMain true true ⟨Method.mPOST, "0".data, "c1".data⟩ ⟨[], UpOutcome.ok200⟩ =
      ⟨[SSEEv.evError, SSEEv.evClose], false⟩ ∧
    onMessage defaultCfg [] zeroRaw doneOnlyUp = ⟨[WsFrame.wError], [], false⟩ := by
  decide
